import Mathlib

/-!
Verification development for mlib's `example/ex11-count-lines.c`.

The program recursively walks a directory subtree, counts the newline bytes of
every C/C++ source file (suffixes `.c`, `.h`, `.cpp`, `.hpp`), accumulates the
counts per directory in an aggregation tree, and then runs a single post-order
consolidation pass that folds every child total into its parent and sorts each
sibling group by decreasing count.

The shallow embedding below models the filesystem as an inductive tree of
entries, the aggregation tree as a rose tree of `(nlines, name)` records, and
all counter arithmetic in C `unsigned` (32-bit) arithmetic, i.e. `% 2^32`.
Functions of `ex11-count-lines.c` keep their source names; primitives that the
example takes from the mlib library headers (m-string.h, m-tree.h), which are
not part of the sources at hand, are modelled from the specification and say so
in their doc comments.
-/

namespace CountLines

/-- The modulus of C `unsigned` / `atomic_uint` arithmetic: 2^32. -/
def U32 : Nat := 4294967296

/-- `MAX_READ_BUFFER` from the source: fread chunk size. -/
def MAX_READ_BUFFER : Nat := 8192

/-- `MAX_DIRECTORY` from the source: maximum number of directory nodes reserved. -/
def MAX_DIRECTORY : Nat := 100000

/-- The payload of one aggregation-tree node: the `dir` tuple of the source,
`(nlines : atomic_uint, name : string_t)`.  `nlines` is kept as a `Nat` that is
reduced `% U32` at every addition, matching `atomic_uint`. -/
structure DirData where
  nlines : Nat
  name : String
deriving DecidableEq, Repr

/-- The aggregation tree (`M_TREE_DEF(tree, dir_t)`): a rose tree of `DirData`,
children in insertion order. -/
inductive DirTree where
  | node (data : DirData) (children : List DirTree)

def DirTree.nlines : DirTree → Nat
  | .node d _ => d.nlines

def DirTree.name : DirTree → String
  | .node d _ => d.name

def DirTree.children : DirTree → List DirTree
  | .node _ cs => cs

/-- `count_eol` from the source: counts the `'\n'` bytes of the buffer in a C
`unsigned` counter, which wraps modulo 2^32 on every increment. -/
def count_eol (buffer : List Char) : Nat :=
  buffer.foldl (fun count c => (count + if c = '\n' then 1 else 0) % U32) 0

/-- Modelled from the spec: `string_end_with_str_p` from m-string.h (not among
the sources at hand) tests whether the string ends with the given suffix, as a
case-sensitive byte comparison. -/
def string_end_with_str_p (s pat : String) : Bool :=
  pat.data.isSuffixOf s.data

/-- `is_a_c_file` from the source: the fixed, case-sensitive suffix filter. -/
def is_a_c_file (filename : String) : Bool :=
  string_end_with_str_p filename ".c"
    || string_end_with_str_p filename ".h"
    || string_end_with_str_p filename ".cpp"
    || string_end_with_str_p filename ".hpp"

/-- `count_eol` restarted from an arbitrary counter value: the body of the
fread loop of `scan_file` threads the `unsigned count` accumulator through
successive buffers. -/
def count_eol_from (acc : Nat) (buffer : List Char) : Nat :=
  buffer.foldl (fun count c => (count + if c = '\n' then 1 else 0) % U32) acc

/-- The fread loop of `scan_file`: the file content arrives as successive
chunks of at most `MAX_READ_BUFFER` bytes, and `count += count_eol(buffer, num)`
accumulates in a C `unsigned`, hence modulo 2^32. -/
def fread_loop (chunks : List (List Char)) : Nat :=
  chunks.foldl (fun count chunk => (count + count_eol chunk) % U32) 0

/-- The effect of `scan_file` on the `nlines` counter of the owning directory
node: if the filename passes `is_a_c_file`, the file's newline count is added
by `atomic_fetch_add` (an `atomic_uint`, so modulo 2^32); otherwise `scan_file`
returns without touching the counter. -/
def scan_file (parent_nlines : Nat) (filename : String) (content : List Char) : Nat :=
  if is_a_c_file filename then (parent_nlines + count_eol content) % U32
  else parent_nlines

/-- A model filesystem: a file with its raw byte content, or a directory with
its entries in readdir order. -/
inductive FSEntry where
  | file (name : String) (content : List Char)
  | dir (name : String) (entries : List FSEntry)

/-- The `d_name` of a directory entry. -/
def FSEntry.name : FSEntry → String
  | .file n _ => n
  | .dir n _ => n

/-- The hidden-entry test of `scan_directories`: `entry->d_name[0] == '.'`
(also true of the pseudo-entries `.` and `..`). -/
def entry_hidden (name : String) : Bool :=
  match name.data with
  | [] => false
  | c :: _ => c = '.'

/-- The path construction of `scan_directories`:
`string_sets(filename, dirname, "/", entry->d_name)`. -/
def make_path (dirname name : String) : String :=
  dirname ++ "/" ++ name

/-- The accumulation of the readdir loop of `scan_directories` on the current
node's own `nlines` counter: every non-hidden regular-file entry goes through
`scan_file`; directory entries only produce child nodes, never touch this
counter. -/
def dir_nlines (dirname : String) (acc : Nat) : List FSEntry → Nat
  | [] => acc
  | .file n content :: rest =>
      if entry_hidden n then dir_nlines dirname acc rest
      else dir_nlines dirname (scan_file acc (make_path dirname n) content) rest
  | .dir _ _ :: rest => dir_nlines dirname acc rest

mutual
/-- `scan_directories` from the source, on a fault-free filesystem: creates the
node for `dirname` (via `add_directory`, initial `nlines` 0), then walks the
entries in readdir order, feeding regular files to `scan_file` on this node's
counter and recursing into non-hidden subdirectories, whose nodes are inserted
as children in encounter order. -/
def scan_directories (dirname : String) (entries : List FSEntry) : DirTree :=
  DirTree.node ⟨dir_nlines dirname 0 entries, dirname⟩ (dir_children dirname entries)

/-- The children created by the readdir loop of `scan_directories`: one node
per non-hidden directory entry, in readdir order. -/
def dir_children (dirname : String) : List FSEntry → List DirTree
  | [] => []
  | .file _ _ :: rest => dir_children dirname rest
  | .dir n es :: rest =>
      if entry_hidden n then dir_children dirname rest
      else scan_directories (make_path dirname n) es :: dir_children dirname rest
end

/-- `atomic_uint_cmp` from the source: orders the biggest value first
(`ai > bi ? -1 : ai < bi`). -/
def atomic_uint_cmp (a b : Nat) : Int :=
  if a > b then -1 else if a < b then 1 else 0

/-- Modelled from the spec: `tree_sort_child` from m-tree.h (not among the
sources at hand) reorders the direct children of a node in place with a stable
sort in increasing comparator order; ties keep insertion order. With
`atomic_uint_cmp` as comparator this puts the biggest `nlines` first. -/
def tree_sort_child (cs : List DirTree) : List DirTree :=
  cs.mergeSort (fun a b => decide (atomic_uint_cmp a.nlines b.nlines ≤ 0))

mutual
/-- `consolidate_directories` from the source: one post-order pass; every
non-root node adds its `nlines` into its parent by `atomic_fetch_add`
(an `atomic_uint`, so modulo 2^32), children before the parent, siblings in
insertion order; each node's children are sorted by `tree_sort_child` at the
node's own post-order visit, i.e. after all of them hold their final values. -/
def consolidate_directories : DirTree → DirTree
  | .node d cs =>
    let cs' := consolidate_children cs
    DirTree.node ⟨cs'.foldl (fun n c => (n + c.nlines) % U32) d.nlines, d.name⟩
      (tree_sort_child cs')

/-- Pointwise consolidation of a child list (post-order: each child's subtree
is fully consolidated before the parent is visited). -/
def consolidate_children : List DirTree → List DirTree
  | [] => []
  | c :: cs => consolidate_directories c :: consolidate_children cs
end

mutual
/-- All nodes of a directory tree: the node itself and every descendant. -/
def allNodes : DirTree → List DirTree
  | .node d cs => DirTree.node d cs :: allNodesL cs

/-- All nodes of a forest. -/
def allNodesL : List DirTree → List DirTree
  | [] => []
  | c :: cs => allNodes c ++ allNodesL cs
end

/-- Reference brute-force walk: the plain (unbounded `Nat`) number of newline
bytes of every recognized-suffix, non-hidden file anywhere under a directory
with entry list `entries`, hidden subdirectories excluded, recognition applied
to the constructed path exactly as the scanner does. -/
def subtree_newlines (dirname : String) : List FSEntry → Nat
  | [] => 0
  | .file n content :: rest =>
      (if ¬ entry_hidden n ∧ is_a_c_file (make_path dirname n) then
        content.count '\n' else 0) + subtree_newlines dirname rest
  | .dir n es :: rest =>
      (if entry_hidden n then 0 else subtree_newlines (make_path dirname n) es)
        + subtree_newlines dirname rest

/-- The newline bytes contributed by the regular files directly inside one
directory (plain `Nat` sum; the reference value of the per-directory counter
before any modular reduction). -/
def direct_newlines (dirname : String) : List FSEntry → Nat
  | [] => 0
  | .file n content :: rest =>
      (if ¬ entry_hidden n ∧ is_a_c_file (make_path dirname n) then
        content.count '\n' else 0) + direct_newlines dirname rest
  | .dir _ _ :: rest => direct_newlines dirname rest

/-- The filesystem with every hidden entry (name starting with `.`) removed,
at every depth. -/
def strip_hidden : List FSEntry → List FSEntry
  | [] => []
  | .file n c :: rest =>
      if entry_hidden n then strip_hidden rest
      else FSEntry.file n c :: strip_hidden rest
  | .dir n es :: rest =>
      if entry_hidden n then strip_hidden rest
      else FSEntry.dir n (strip_hidden es) :: strip_hidden rest

/-- The number of directories the scanner visits below a directory with the
given entry list: one per non-hidden directory entry, recursively. -/
def scanned_dirs : List FSEntry → Nat
  | [] => 0
  | .file _ _ :: rest => scanned_dirs rest
  | .dir n es :: rest =>
      (if entry_hidden n then 0 else 1 + scanned_dirs es) + scanned_dirs rest

mutual
/-- Whether every node of the tree has `nlines = 0`. -/
def subtree_zero : DirTree → Bool
  | .node d cs => (d.nlines == 0) && forest_zero cs

/-- Whether every node of the forest has `nlines = 0`. -/
def forest_zero : List DirTree → Bool
  | [] => true
  | c :: cs => subtree_zero c && forest_zero cs
end

/-- Whether every node other than the root has `nlines = 0`. -/
def non_root_zero (t : DirTree) : Bool :=
  forest_zero t.children

mutual
/-- Apply `f` to the `nlines` field of the node at the given child-index path
(the `tree_it_t` handed to `scan_file` designates one node; this models
dereferencing it and updating its counter in place). Invalid paths leave the
tree unchanged. -/
def update_nlines (f : Nat → Nat) : DirTree → List Nat → DirTree
  | .node d cs, [] => DirTree.node ⟨f d.nlines, d.name⟩ cs
  | .node d cs, i :: addr => DirTree.node d (update_child f cs i addr)

/-- Apply `update_nlines` to the `i`-th element of a child list. -/
def update_child (f : Nat → Nat) : List DirTree → Nat → List Nat → List DirTree
  | [], _, _ => []
  | c :: cs, 0, addr => update_nlines f c addr :: cs
  | c :: cs, i + 1, addr => c :: update_child f cs i addr
end

/-- `scan_file` as a whole-tree transformation: the node designated by `addr`
is the directory that directly contains the file; its counter receives the
file's count exactly as in `scan_file` (nothing if the suffix is not
recognized). -/
def scan_file_at (t : DirTree) (addr : List Nat) (filename : String)
    (content : List Char) : DirTree :=
  update_nlines (fun n => scan_file n filename content) t addr

mutual
/-- Read the `nlines` field of the node at the given child-index path. -/
def nlines_at : DirTree → List Nat → Option Nat
  | .node d _, [] => some d.nlines
  | .node _ cs, i :: addr => nlines_at_child cs i addr

/-- Read `nlines_at` in the `i`-th element of a child list. -/
def nlines_at_child : List DirTree → Nat → List Nat → Option Nat
  | [], _, _ => none
  | c :: _, 0, addr => nlines_at c addr
  | _ :: cs, i + 1, addr => nlines_at_child cs i addr
end

/-- The name-and-position skeleton of a directory tree (everything about a
node except its counter). -/
inductive NameTree where
  | node (name : String) (children : List NameTree)

mutual
/-- Erase the counters of a directory tree, keeping names and positions. -/
def shape : DirTree → NameTree
  | .node d cs => NameTree.node d.name (shapeL cs)

/-- Erase the counters of a forest. -/
def shapeL : List DirTree → List NameTree
  | [] => []
  | c :: cs => shape c :: shapeL cs
end

/-- Modelled from the spec: the aggregation tree's arena-like node store
(m-tree.h is not among the sources at hand).  `tree_reserve` pre-allocates
`capacity` stable slots and `tree_lock` freezes that capacity; nodes then live
at stable indices, appended in insertion order. -/
structure ArenaTree where
  nodes : List DirData
  capacity : Nat

/-- Modelled from the spec: the state after `tree_reserve(directories,
MAX_DIRECTORY); tree_lock(directories, true)` — an empty store whose capacity
is frozen at `cap`. -/
def tree_reserve (cap : Nat) : ArenaTree :=
  ⟨[], cap⟩

/-- Modelled from the spec: inserting a node into the locked store appends it
in the next free slot without relocating any existing node; if the reserved
capacity is exhausted the insertion is a fatal, deterministic failure
(capacity exceeded), never a silent drop. -/
def arena_insert (a : ArenaTree) (d : DirData) : Except String ArenaTree :=
  if a.nodes.length < a.capacity then
    Except.ok ⟨a.nodes ++ [d], a.capacity⟩
  else Except.error "capacity exceeded"

/-- Insert a whole list of nodes in order, stopping at the first failure. -/
def arena_insert_many (a : ArenaTree) : List DirData → Except String ArenaTree
  | [] => Except.ok a
  | d :: ds => match arena_insert a d with
      | Except.ok a' => arena_insert_many a' ds
      | Except.error e => Except.error e

/-- A model filesystem in which entries can also fail: a regular file whose
`fopen` fails, a directory whose `opendir` fails, or an entry whose `stat`
fails. -/
inductive FSEntryE where
  | file (name : String) (content : List Char)
  | fileUnreadable (name : String)
  | dirE (name : String) (entries : List FSEntryE)
  | dirUnreadable (name : String)
  | statFail (name : String)

/-- An error abort: the exit code passed to `exit` and the offending path
printed to stderr. -/
structure ErrExit where
  code : Nat
  path : String
deriving DecidableEq, Repr

mutual
/-- `scan_directories` on a filesystem with faults: any fault is reported with
the offending path and aborts the whole run (`exit(1)` for an unopenable file
or directory, `exit(2)` for a failed `stat`); there is no skip-and-continue.
A file whose suffix is not recognized is never opened, so its faults go
unnoticed (`scan_file` returns before `fopen`). -/
def scanE_directories (dirname : String) (entries : List FSEntryE) :
    Except ErrExit DirTree :=
  match scanE_entries dirname 0 entries with
  | Except.ok (n, cs) => Except.ok (DirTree.node ⟨n, dirname⟩ cs)
  | Except.error e => Except.error e

/-- The readdir loop of `scan_directories` on a filesystem with faults,
threading the current node's counter and child list. -/
def scanE_entries (dirname : String) (acc : Nat) :
    List FSEntryE → Except ErrExit (Nat × List DirTree)
  | [] => Except.ok (acc, [])
  | .file n content :: rest =>
      if entry_hidden n then scanE_entries dirname acc rest
      else scanE_entries dirname (scan_file acc (make_path dirname n) content) rest
  | .fileUnreadable n :: rest =>
      if entry_hidden n then scanE_entries dirname acc rest
      else if is_a_c_file (make_path dirname n) then
        Except.error ⟨1, make_path dirname n⟩
      else scanE_entries dirname acc rest
  | .dirE n es :: rest =>
      if entry_hidden n then scanE_entries dirname acc rest
      else match scanE_directories (make_path dirname n) es with
        | Except.ok child =>
            match scanE_entries dirname acc rest with
            | Except.ok (n', cs) => Except.ok (n', child :: cs)
            | Except.error e => Except.error e
        | Except.error e => Except.error e
  | .dirUnreadable n :: rest =>
      if entry_hidden n then scanE_entries dirname acc rest
      else Except.error ⟨1, make_path dirname n⟩
  | .statFail n :: rest =>
      if entry_hidden n then scanE_entries dirname acc rest
      else Except.error ⟨2, make_path dirname n⟩
end

/-- The root directory as `main` sees it: either its entry list, or a root
whose `opendir` fails. -/
inductive RootFS where
  | ok (entries : List FSEntryE)
  | unreadable

/-- `main` from the source: `args` models `argv[1..]`.  A missing argument is
a usage error (`exit(1)`); otherwise the root directory is scanned (any scan
fault exits with its code), then the tree is consolidated, printed, and the
process exits 0. -/
def main_run (args : List String) (root : RootFS) : Nat :=
  match args with
  | [] => 1
  | rootPath :: _ =>
    match root with
    | .unreadable => 1
    | .ok es =>
      match scanE_directories rootPath es with
      | Except.error e => e.code
      | Except.ok _ => 0

/-! ### Basic arithmetic facts about the `unsigned` counters -/

theorem U32_pos : 0 < U32 := by decide

theorem count_eol_from_nil (acc : Nat) : count_eol_from acc [] = acc := rfl

theorem count_eol_from_cons (acc : Nat) (c : Char) (l : List Char) :
    count_eol_from acc (c :: l) =
      count_eol_from ((acc + if c = '\n' then 1 else 0) % U32) l := rfl

theorem count_eol_eq_from (l : List Char) : count_eol l = count_eol_from 0 l := rfl

/-- A C `unsigned` counter incremented once per newline byte holds the plain
newline count reduced modulo 2^32. -/
theorem count_eol_from_eq (l : List Char) : ∀ acc : Nat, acc < U32 →
    count_eol_from acc l = (acc + l.count '\n') % U32 := by
  induction l with
  | nil =>
      intro acc h
      rw [count_eol_from_nil, List.count_nil, Nat.add_zero, Nat.mod_eq_of_lt h]
  | cons c l ih =>
      intro acc h
      have hcount : (c :: l).count '\n' = l.count '\n' + (if c = '\n' then 1 else 0) := by
        rw [List.count_cons]
        by_cases hc : c = '\n' <;> simp [hc]
      rw [count_eol_from_cons, ih _ (Nat.mod_lt _ U32_pos), hcount, Nat.mod_add_mod]
      congr 1
      omega

/-- The per-file counter `count` holds the file's newline count modulo 2^32. -/
theorem count_eol_eq (l : List Char) : count_eol l = l.count '\n' % U32 := by
  rw [count_eol_eq_from, count_eol_from_eq l 0 U32_pos, Nat.zero_add]

theorem count_eol_lt (l : List Char) : count_eol l < U32 := by
  rw [count_eol_eq]; exact Nat.mod_lt _ U32_pos

theorem count_eol_from_append (acc : Nat) (l₁ l₂ : List Char) :
    count_eol_from acc (l₁ ++ l₂) = count_eol_from (count_eol_from acc l₁) l₂ :=
  List.foldl_append ..

/-- The fread loop of `scan_file` computes `count_eol` of the whole file, no
matter how the content is cut into chunks: the chunked accumulation in the
`unsigned count` agrees with a single pass over the concatenated bytes. -/
theorem fread_loop_eq (chunks : List (List Char)) :
    fread_loop chunks = count_eol chunks.flatten := by
  suffices h : ∀ (cks : List (List Char)) (acc : Nat), acc < U32 →
      cks.foldl (fun count chunk => (count + count_eol chunk) % U32) acc =
        count_eol_from acc cks.flatten by
    exact h chunks 0 U32_pos
  intro cks
  induction cks with
  | nil => intro acc h; rfl
  | cons ch chs ih =>
      intro acc h
      have hstep : (acc + count_eol ch) % U32 = count_eol_from acc ch := by
        rw [count_eol_eq, count_eol_from_eq ch acc h, Nat.add_mod_mod]
      rw [List.foldl_cons, List.flatten_cons, count_eol_from_append,
        ih _ (Nat.mod_lt _ U32_pos), hstep]

theorem scan_file_matched (acc : Nat) (fn : String) (content : List Char)
    (h : is_a_c_file fn = true) :
    scan_file acc fn content = (acc + content.count '\n') % U32 := by
  rw [scan_file, if_pos h, count_eol_eq, Nat.add_mod_mod]

theorem scan_file_unmatched (acc : Nat) (fn : String) (content : List Char)
    (h : is_a_c_file fn = false) : scan_file acc fn content = acc := by
  rw [scan_file, h]; rfl

theorem scan_file_lt (acc : Nat) (fn : String) (content : List Char)
    (h : acc < U32) : scan_file acc fn content < U32 := by
  rw [scan_file]
  by_cases hf : is_a_c_file fn = true
  · rw [if_pos hf]; exact Nat.mod_lt _ U32_pos
  · rw [if_neg hf]; exact h

/-- The per-directory accumulation: the node's own counter ends at the plain
sum of its directly-contained recognized files' newline counts, modulo 2^32. -/
theorem dir_nlines_eq (dirname : String) (es : List FSEntry) : ∀ acc : Nat,
    acc < U32 → dir_nlines dirname acc es = (acc + direct_newlines dirname es) % U32 := by
  induction es with
  | nil =>
      intro acc h
      rw [dir_nlines, direct_newlines, Nat.add_zero, Nat.mod_eq_of_lt h]
  | cons e rest ih =>
      intro acc h
      match e with
      | .file n content =>
          rw [dir_nlines, direct_newlines]
          by_cases hh : entry_hidden n = true
          · rw [if_pos hh, ih _ h, if_neg (by simp [hh]), Nat.zero_add]
          · have hh' : entry_hidden n = false := by
              revert hh; cases entry_hidden n <;> simp
            rw [if_neg (by simp [hh'])]
            by_cases hf : is_a_c_file (make_path dirname n) = true
            · rw [ih _ (scan_file_lt _ _ _ h),
                scan_file_matched _ _ _ hf,
                if_pos (by simp [hh', hf]), Nat.mod_add_mod, Nat.add_assoc]
            · have hf' : is_a_c_file (make_path dirname n) = false := by
                revert hf; cases is_a_c_file (make_path dirname n) <;> simp
              rw [ih _ (scan_file_lt _ _ _ h),
                scan_file_unmatched _ _ _ hf',
                if_neg (by simp [hf']), Nat.zero_add]
      | .dir n es' =>
          rw [dir_nlines, direct_newlines, ih _ h]

theorem dir_nlines_lt (dirname : String) (es : List FSEntry) :
    dir_nlines dirname 0 es < U32 := by
  rw [dir_nlines_eq dirname es 0 U32_pos]
  exact Nat.mod_lt _ U32_pos

/-! ### Structure of the scanner and the consolidation pass -/

theorem scan_node (dirname : String) (es : List FSEntry) :
    scan_directories dirname es
      = DirTree.node ⟨dir_nlines dirname 0 es, dirname⟩ (dir_children dirname es) := by
  rw [scan_directories]

theorem consolidate_node (d : DirData) (cs : List DirTree) :
    consolidate_directories (DirTree.node d cs)
      = DirTree.node
          ⟨(consolidate_children cs).foldl (fun n c => (n + c.nlines) % U32) d.nlines,
            d.name⟩
          (tree_sort_child (consolidate_children cs)) := by
  rw [consolidate_directories]

theorem consolidate_children_eq_map (cs : List DirTree) :
    consolidate_children cs = cs.map consolidate_directories := by
  induction cs with
  | nil => rw [consolidate_children, List.map_nil]
  | cons c cs ih => rw [consolidate_children, ih, List.map_cons]

/-- The post-order fold of child counters into a parent counter (a chain of
`atomic_fetch_add` on an `atomic_uint`) yields the plain sum modulo 2^32. -/
theorem fold_add_mod (cs : List DirTree) : ∀ init : Nat, init < U32 →
    cs.foldl (fun n c => (n + c.nlines) % U32) init
      = (init + (cs.map DirTree.nlines).sum) % U32 := by
  induction cs with
  | nil =>
      intro init h
      rw [List.foldl_nil, List.map_nil, List.sum_nil, Nat.add_zero, Nat.mod_eq_of_lt h]
  | cons c cs ih =>
      intro init h
      rw [List.foldl_cons, ih _ (Nat.mod_lt _ U32_pos), List.map_cons, List.sum_cons,
        Nat.mod_add_mod, Nat.add_assoc]

theorem atomic_uint_cmp_le_iff (a b : Nat) : atomic_uint_cmp a b ≤ 0 ↔ b ≤ a := by
  rw [atomic_uint_cmp]
  split
  · omega
  · split <;> omega

theorem tree_sort_le_iff (a b : DirTree) :
    (decide (atomic_uint_cmp a.nlines b.nlines ≤ 0) = true) ↔ b.nlines ≤ a.nlines := by
  rw [decide_eq_true_iff]
  exact atomic_uint_cmp_le_iff _ _

theorem tree_sort_le_trans : ∀ a b c : DirTree,
    decide (atomic_uint_cmp a.nlines b.nlines ≤ 0)
    → decide (atomic_uint_cmp b.nlines c.nlines ≤ 0)
    → decide (atomic_uint_cmp a.nlines c.nlines ≤ 0) := by
  intro a b c hab hbc
  rw [tree_sort_le_iff] at hab hbc ⊢
  exact Nat.le_trans hbc hab

theorem tree_sort_le_total : ∀ a b : DirTree,
    decide (atomic_uint_cmp a.nlines b.nlines ≤ 0)
      || decide (atomic_uint_cmp b.nlines a.nlines ≤ 0) := by
  intro a b
  rcases Nat.le_total a.nlines b.nlines with h | h
  · rw [Bool.or_eq_true, tree_sort_le_iff, tree_sort_le_iff]
    exact Or.inr h
  · rw [Bool.or_eq_true, tree_sort_le_iff, tree_sort_le_iff]
    exact Or.inl h

theorem mem_tree_sort_child (c : DirTree) (cs : List DirTree) :
    c ∈ tree_sort_child cs ↔ c ∈ cs := by
  rw [tree_sort_child]
  exact List.mem_mergeSort

theorem tree_sort_child_perm (cs : List DirTree) : List.Perm (tree_sort_child cs) cs :=
  List.mergeSort_perm cs _

/-- The child order produced by `tree_sort_child` is non-increasing in
`nlines`. -/
theorem tree_sort_child_sorted (cs : List DirTree) :
    (tree_sort_child cs).Pairwise (fun a b => b.nlines ≤ a.nlines) := by
  have h : (List.mergeSort cs
      (fun a b : DirTree => decide (atomic_uint_cmp a.nlines b.nlines ≤ 0))).Pairwise
      (fun a b : DirTree => decide (atomic_uint_cmp a.nlines b.nlines ≤ 0) = true) :=
    List.sorted_mergeSort tree_sort_le_trans tree_sort_le_total cs
  rw [tree_sort_child]
  exact h.imp (fun hab => (tree_sort_le_iff _ _).mp hab)

theorem mem_allNodesL (u : DirTree) (cs : List DirTree) :
    u ∈ allNodesL cs ↔ ∃ c ∈ cs, u ∈ allNodes c := by
  induction cs with
  | nil => rw [allNodesL]; simp
  | cons c cs ih => rw [allNodesL]; simp [ih]

theorem self_mem_allNodes (t : DirTree) : t ∈ allNodes t := by
  match t with
  | .node d cs => rw [allNodes]; exact List.mem_cons_self _ _

/-! ### The consolidated counters against the reference brute-force walk -/

theorem consolidate_scan_root_of (dirname : String) (es : List FSEntry)
    (hb : (direct_newlines dirname es
        + ((consolidate_children (dir_children dirname es)).map DirTree.nlines).sum) % U32
      = subtree_newlines dirname es % U32) :
    (consolidate_directories (scan_directories dirname es)).nlines
      = subtree_newlines dirname es % U32 := by
  rw [scan_node, consolidate_node, DirTree.nlines,
    fold_add_mod _ _ (dir_nlines_lt dirname es),
    dir_nlines_eq dirname es 0 U32_pos, Nat.zero_add, Nat.mod_add_mod, hb]

/-- Adding congruent summands on the left preserves congruence modulo `U32`. -/
theorem add_left_mod_congr (t a b : Nat) (h : a % U32 = b % U32) :
    (t + a) % U32 = (t + b) % U32 := by
  rw [Nat.add_mod t a, h, ← Nat.add_mod]

/-- The key consolidation identity: the directly-contained newline total plus
the (already consolidated, hence modularly reduced) child totals agrees,
modulo 2^32, with the brute-force newline total of the whole subtree. -/
theorem consolidate_scan_sum (dirname : String) (es : List FSEntry) :
    (direct_newlines dirname es
      + ((consolidate_children (dir_children dirname es)).map DirTree.nlines).sum) % U32
    = subtree_newlines dirname es % U32 := by
  match es with
  | [] =>
      rw [direct_newlines, dir_children, subtree_newlines, consolidate_children,
        List.map_nil, List.sum_nil, Nat.add_zero]
  | .file n content :: rest =>
      rw [direct_newlines, dir_children, subtree_newlines, Nat.add_assoc]
      exact add_left_mod_congr _ _ _ (consolidate_scan_sum dirname rest)
  | .dir n es' :: rest =>
      by_cases hh : entry_hidden n = true
      · rw [direct_newlines, dir_children, subtree_newlines]
        simp only [hh, if_true, if_pos]
        rw [Nat.zero_add]
        exact consolidate_scan_sum dirname rest
      · have hh' : ¬ (entry_hidden n = true) := hh
        have hA : (consolidate_directories (scan_directories (make_path dirname n) es')).nlines
            = subtree_newlines (make_path dirname n) es' % U32 :=
          consolidate_scan_root_of _ _ (consolidate_scan_sum (make_path dirname n) es')
        rw [direct_newlines, dir_children, subtree_newlines, if_neg hh', if_neg hh',
          consolidate_children, List.map_cons, List.sum_cons, hA]
        have h1 : direct_newlines dirname rest
            + (subtree_newlines (make_path dirname n) es' % U32
              + ((consolidate_children (dir_children dirname rest)).map DirTree.nlines).sum)
            = subtree_newlines (make_path dirname n) es' % U32
              + (direct_newlines dirname rest
                + ((consolidate_children (dir_children dirname rest)).map DirTree.nlines).sum) := by
          omega
        rw [h1, Nat.mod_add_mod]
        exact add_left_mod_congr _ _ _ (consolidate_scan_sum dirname rest)

/-- The root counter of the consolidated scan is the brute-force subtree total
modulo 2^32. -/
theorem consolidate_scan_nlines (dirname : String) (es : List FSEntry) :
    (consolidate_directories (scan_directories dirname es)).nlines
      = subtree_newlines dirname es % U32 :=
  consolidate_scan_root_of dirname es (consolidate_scan_sum dirname es)

mutual
/-- Every node of a consolidated scan is itself the consolidated scan of some
directory (namely the one it was created for). -/
theorem allNodes_consolidate_scan (dirname : String) (es : List FSEntry) :
    ∀ u ∈ allNodes (consolidate_directories (scan_directories dirname es)),
      ∃ dn' es', u = consolidate_directories (scan_directories dn' es') := by
  intro u hu
  rw [scan_node, consolidate_node, allNodes] at hu
  rcases List.mem_cons.mp hu with h | h
  · exact ⟨dirname, es, by rw [scan_node, consolidate_node]; exact h⟩
  · rcases (mem_allNodesL u _).mp h with ⟨c, hc, hu'⟩
    rw [mem_tree_sort_child, consolidate_children_eq_map] at hc
    rcases List.mem_map.mp hc with ⟨c₀, hc₀, hceq⟩
    rw [← hceq] at hu'
    exact allNodes_consolidate_scan_children dirname es c₀ hc₀ u hu'

/-- Every node of the consolidation of a scanned child is itself a
consolidated scan. -/
theorem allNodes_consolidate_scan_children (dirname : String) (es : List FSEntry) :
    ∀ c ∈ dir_children dirname es,
      ∀ u ∈ allNodes (consolidate_directories c),
        ∃ dn' es', u = consolidate_directories (scan_directories dn' es') := by
  match es with
  | [] =>
      rw [dir_children]
      intro c hc
      exact absurd hc (List.not_mem_nil c)
  | .file n content :: rest =>
      rw [dir_children]
      exact allNodes_consolidate_scan_children dirname rest
  | .dir n es' :: rest =>
      rw [dir_children]
      by_cases hh : entry_hidden n = true
      · rw [if_pos hh]
        exact allNodes_consolidate_scan_children dirname rest
      · rw [if_neg hh]
        intro c hc
        rcases List.mem_cons.mp hc with h | h
        · rw [h]
          exact allNodes_consolidate_scan (make_path dirname n) es'
        · exact allNodes_consolidate_scan_children dirname rest c h
end

/-! ### Claim C1 -/

/-- C1, as stated, is false: the counters are 32-bit `unsigned`, so a subtree
holding 2^32 newline bytes consolidates to 0, not to its newline count.
Concretely, a directory containing one file `a.c` of 2^32 newline bytes gets
`nlines = 0` while its subtree holds 2^32 newline bytes. -/
theorem C1_counterexample :
    (consolidate_directories
        (scan_directories "root" [FSEntry.file "a.c" (List.replicate U32 '\n')])).nlines
      ≠ subtree_newlines "root" [FSEntry.file "a.c" (List.replicate U32 '\n')] := by
  have hs : subtree_newlines "root" [FSEntry.file "a.c" (List.replicate U32 '\n')] = U32 := by
    rw [subtree_newlines, subtree_newlines, if_pos ⟨by decide, by decide⟩,
      List.count_replicate_self, Nat.add_zero]
  rw [consolidate_scan_nlines, hs, Nat.mod_self]
  decide

/-- C1 (amended): after one consolidation pass, the `nlines` of the root — and
likewise of every node of the tree, each of which is itself the consolidated
scan of the directory it was created for — equals the number of newline bytes
of all recognized-suffix files anywhere in that directory subtree, reduced
modulo 2^32 (the counters are 32-bit `unsigned`). -/
theorem C1_consolidated_totals (dirname : String) (es : List FSEntry) :
    (consolidate_directories (scan_directories dirname es)).nlines
      = subtree_newlines dirname es % U32
    ∧ ∀ u ∈ allNodes (consolidate_directories (scan_directories dirname es)),
        ∃ dn' es', u = consolidate_directories (scan_directories dn' es')
          ∧ u.nlines = subtree_newlines dn' es' % U32 := by
  refine ⟨consolidate_scan_nlines dirname es, ?_⟩
  intro u hu
  rcases allNodes_consolidate_scan dirname es u hu with ⟨dn', es', h⟩
  exact ⟨dn', es', h, by rw [h]; exact consolidate_scan_nlines dn' es'⟩

/-- Witness for C1: a directory with one 2-line `a.c` consolidates to `nlines
= 2`, and the membership hypothesis of the second conjunct is discharged at
the root node. -/
theorem C1_witness :
    (consolidate_directories
        (scan_directories "r" [FSEntry.file "a.c" ['\n', '\n']])).nlines = 2
    ∧ ∃ dn' es',
        consolidate_directories (scan_directories "r" [FSEntry.file "a.c" ['\n', '\n']])
          = consolidate_directories (scan_directories dn' es')
        ∧ (consolidate_directories
            (scan_directories "r" [FSEntry.file "a.c" ['\n', '\n']])).nlines
          = subtree_newlines dn' es' % U32 := by
  have h := C1_consolidated_totals "r" [FSEntry.file "a.c" ['\n', '\n']]
  constructor
  · rw [h.1, subtree_newlines, subtree_newlines, if_pos ⟨by decide, by decide⟩]
    decide
  · exact h.2 _ (self_mem_allNodes _)

/-! ### Claim C2: sibling order after consolidation -/

mutual
/-- Every node of a consolidated tree has its children in non-increasing
`nlines` order. -/
theorem consolidate_sorted (t : DirTree) :
    ∀ u ∈ allNodes (consolidate_directories t),
      u.children.Pairwise (fun a b => b.nlines ≤ a.nlines) := by
  match t with
  | .node d cs =>
    intro u hu
    rw [consolidate_node, allNodes] at hu
    rcases List.mem_cons.mp hu with h | h
    · rw [h, DirTree.children]
      exact tree_sort_child_sorted _
    · rcases (mem_allNodesL u _).mp h with ⟨c, hc, hu'⟩
      rw [mem_tree_sort_child, consolidate_children_eq_map] at hc
      rcases List.mem_map.mp hc with ⟨c₀, hc₀, hceq⟩
      rw [← hceq] at hu'
      exact consolidate_sorted_forest cs c₀ hc₀ u hu'

/-- Forest version of `consolidate_sorted`. -/
theorem consolidate_sorted_forest (cs : List DirTree) :
    ∀ c ∈ cs, ∀ u ∈ allNodes (consolidate_directories c),
      u.children.Pairwise (fun a b => b.nlines ≤ a.nlines) := by
  match cs with
  | [] =>
      intro c hc
      exact absurd hc (List.not_mem_nil c)
  | c' :: cs' =>
      intro c hc
      rcases List.mem_cons.mp hc with h | h
      · rw [h]; exact consolidate_sorted c'
      · exact consolidate_sorted_forest cs' c h
end

/-- Stability of `tree_sort_child`: the children holding any fixed counter
value keep their relative (insertion) order — filtering the sorted sequence to
one key gives exactly the filtered input sequence. -/
theorem tree_sort_child_filter_eq (cs : List DirTree) (v : Nat) :
    (tree_sort_child cs).filter (fun c => c.nlines == v)
      = cs.filter (fun c => c.nlines == v) := by
  have hpw : (cs.filter (fun c => c.nlines == v)).Pairwise
      (fun a b => decide (atomic_uint_cmp a.nlines b.nlines ≤ 0) = true) := by
    apply List.pairwise_of_forall_mem_list
    intro a ha b hb
    have hav : a.nlines = v := by simpa using List.of_mem_filter ha
    have hbv : b.nlines = v := by simpa using List.of_mem_filter hb
    rw [tree_sort_le_iff, hav, hbv]
  have hsub : List.Sublist (cs.filter (fun c => c.nlines == v)) (tree_sort_child cs) := by
    rw [tree_sort_child]
    exact List.sublist_mergeSort tree_sort_le_trans tree_sort_le_total hpw
      (List.filter_sublist cs)
  have hsub' : List.Sublist
      ((cs.filter (fun c => c.nlines == v)).filter (fun c => c.nlines == v))
      ((tree_sort_child cs).filter (fun c => c.nlines == v)) :=
    hsub.filter _
  rw [List.filter_filter] at hsub'
  have hff : (fun c : DirTree => (c.nlines == v) && (c.nlines == v))
      = fun c : DirTree => c.nlines == v := by
    funext c
    exact Bool.and_self _
  rw [hff] at hsub'
  have hperm : List.Perm ((tree_sort_child cs).filter (fun c => c.nlines == v))
      (cs.filter (fun c => c.nlines == v)) :=
    (tree_sort_child_perm cs).filter _
  exact (hsub'.eq_of_length hperm.length_eq.symm).symm

/-- C2: after consolidation every node's direct children appear in
non-increasing `nlines` order, and children with equal `nlines` keep their
insertion order (the sort is stable: filtering the sorted child sequence to
any one counter value yields exactly the insertion-ordered, individually
consolidated children with that value). -/
theorem C2_children_sorted_stable :
    (∀ t : DirTree, ∀ u ∈ allNodes (consolidate_directories t),
        u.children.Pairwise (fun a b => b.nlines ≤ a.nlines))
    ∧ ∀ (d : DirData) (cs : List DirTree) (v : Nat),
        (consolidate_directories (DirTree.node d cs)).children.filter
            (fun c => c.nlines == v)
          = (consolidate_children cs).filter (fun c => c.nlines == v) := by
  constructor
  · exact consolidate_sorted
  · intro d cs v
    rw [consolidate_node, DirTree.children]
    exact tree_sort_child_filter_eq _ v

/-- Witness for C2 at a concrete tree: its consolidated children are sorted,
and filtering to the tied value keeps insertion order. -/
theorem C2_witness :
    (consolidate_directories
        (DirTree.node ⟨0, "r"⟩
          [DirTree.node ⟨1, "a"⟩ [], DirTree.node ⟨2, "b"⟩ [],
            DirTree.node ⟨1, "c"⟩ []])).children.Pairwise
        (fun a b => b.nlines ≤ a.nlines)
    ∧ (consolidate_directories
        (DirTree.node ⟨0, "r"⟩
          [DirTree.node ⟨1, "a"⟩ [], DirTree.node ⟨2, "b"⟩ [],
            DirTree.node ⟨1, "c"⟩ []])).children.filter (fun c => c.nlines == 1)
      = (consolidate_children
          [DirTree.node ⟨1, "a"⟩ [], DirTree.node ⟨2, "b"⟩ [],
            DirTree.node ⟨1, "c"⟩ []]).filter (fun c => c.nlines == 1) :=
  ⟨C2_children_sorted_stable.1 _ _ (self_mem_allNodes _),
    C2_children_sorted_stable.2 ⟨0, "r"⟩ _ 1⟩

/-! ### Claim C3: a second consolidation run -/

theorem fold_lt (cs : List DirTree) : ∀ init : Nat, init < U32 →
    cs.foldl (fun n c => (n + c.nlines) % U32) init < U32 := by
  induction cs with
  | nil => intro init h; exact h
  | cons c cs ih =>
      intro init h
      rw [List.foldl_cons]
      exact ih _ (Nat.mod_lt _ U32_pos)

theorem fold_lt_of_ne_nil (cs : List DirTree) (init : Nat) (h : cs ≠ []) :
    cs.foldl (fun n c => (n + c.nlines) % U32) init < U32 := by
  match cs with
  | [] => exact absurd rfl h
  | c :: cs' =>
      rw [List.foldl_cons]
      exact fold_lt cs' _ (Nat.mod_lt _ U32_pos)

theorem forest_zero_mem (cs : List DirTree) (h : forest_zero cs = true) :
    ∀ c ∈ cs, c.nlines = 0 := by
  induction cs with
  | nil =>
      intro c hc
      exact absurd hc (List.not_mem_nil c)
  | cons c' cs' ih =>
      rw [forest_zero, Bool.and_eq_true] at h
      intro c hc
      rcases List.mem_cons.mp hc with hh | hh
      · rw [hh]
        match c', h.1 with
        | .node d' cs'', h1 =>
            rw [subtree_zero, Bool.and_eq_true] at h1
            rw [DirTree.nlines]
            simpa using h1.1
      · exact ih h.2 c hh

/-- Folding an all-zero child forest into a parent counter below 2^32 leaves
the counter unchanged. -/
theorem fold_zero (cs : List DirTree) (h : forest_zero cs = true) :
    ∀ init : Nat, init < U32 →
      cs.foldl (fun n c => (n + c.nlines) % U32) init = init := by
  induction cs with
  | nil => intro init _; rfl
  | cons c cs ih =>
      rw [forest_zero, Bool.and_eq_true] at h
      intro init hlt
      have hc : c.nlines = 0 :=
        forest_zero_mem (c :: cs) (by rw [forest_zero, Bool.and_eq_true]; exact h)
          c (List.mem_cons_self c cs)
      rw [List.foldl_cons, hc, Nat.add_zero, Nat.mod_eq_of_lt hlt]
      exact ih h.2 init hlt

theorem tree_sort_child_of_sorted (cs : List DirTree)
    (h : cs.Pairwise (fun a b => b.nlines ≤ a.nlines)) : tree_sort_child cs = cs := by
  rw [tree_sort_child]
  exact List.mergeSort_of_sorted (h.imp fun hab => (tree_sort_le_iff _ _).mpr hab)

mutual
/-- A tree whose counters are all zero is a fixed point of consolidation. -/
theorem consolidate_fix_of_zero (t : DirTree) (h : subtree_zero t = true) :
    consolidate_directories t = t := by
  match t with
  | .node d cs =>
      rw [subtree_zero, Bool.and_eq_true] at h
      have hd : d.nlines = 0 := by simpa using h.1
      rw [consolidate_node, consolidate_children_fix_of_zero cs h.2,
        fold_zero cs h.2 d.nlines (by rw [hd]; exact U32_pos),
        tree_sort_child_of_sorted cs]
      apply List.pairwise_of_forall_mem_list
      intro a ha b hb
      rw [forest_zero_mem cs h.2 a ha, forest_zero_mem cs h.2 b hb]

/-- Forest version of `consolidate_fix_of_zero`. -/
theorem consolidate_children_fix_of_zero (cs : List DirTree)
    (h : forest_zero cs = true) : consolidate_children cs = cs := by
  match cs with
  | [] => rw [consolidate_children]
  | c :: cs' =>
      rw [forest_zero, Bool.and_eq_true] at h
      rw [consolidate_children, consolidate_fix_of_zero c h.1,
        consolidate_children_fix_of_zero cs' h.2]
end

/-- The root counter of a consolidated tree with at least one child has been
reduced modulo 2^32. -/
theorem consolidate_nlines_lt (t : DirTree)
    (h : (consolidate_directories t).children ≠ []) :
    (consolidate_directories t).nlines < U32 := by
  match t with
  | .node d cs =>
      rw [consolidate_node, DirTree.children] at h
      rw [consolidate_node, DirTree.nlines]
      apply fold_lt_of_ne_nil
      intro hnil
      rw [hnil, tree_sort_child] at h
      exact h List.mergeSort_nil

/-- C3 as stated is false: the post-order pass of `consolidate_directories`
adds every node's count into its parent unconditionally, so a second run
re-adds the child totals.  On the scan of `root/sub/b.h` (one newline), the
first run leaves the root at 1, the second run moves it to 2. -/
theorem C3_counterexample :
    (consolidate_directories (consolidate_directories
        (scan_directories "root" [FSEntry.dir "sub" [FSEntry.file "b.h" ['\n']]]))).nlines
      ≠ (consolidate_directories
          (scan_directories "root" [FSEntry.dir "sub" [FSEntry.file "b.h" ['\n']]])).nlines := by
  have h1 : scan_directories "root" [FSEntry.dir "sub" [FSEntry.file "b.h" ['\n']]]
      = DirTree.node ⟨0, "root"⟩ [DirTree.node ⟨1, "root/sub"⟩ []] := by
    simp [scan_node, dir_nlines, dir_children, scan_file, make_path, entry_hidden,
      is_a_c_file, string_end_with_str_p, count_eol, count_eol_from, U32]
    decide
  rw [h1]
  simp [consolidate_node, consolidate_children, tree_sort_child, DirTree.nlines, U32]

/-- C3 (amended): a second consolidation run re-adds every child's
consolidated total into its parent, so it is not a no-op in general; it leaves
every count and every sibling ordering unchanged in exactly the situation
where it has nothing left to re-add, namely when every non-root node's count
after the first run is zero. -/
theorem C3_second_run_fixed (t : DirTree)
    (h : non_root_zero (consolidate_directories t) = true) :
    consolidate_directories (consolidate_directories t) = consolidate_directories t := by
  have hsorted : (consolidate_directories t).children.Pairwise
      (fun a b => b.nlines ≤ a.nlines) :=
    consolidate_sorted t _ (self_mem_allNodes _)
  rw [non_root_zero] at h
  match ht : consolidate_directories t with
  | .node d' cs' =>
      rw [ht, DirTree.children] at h hsorted
      rw [consolidate_node, consolidate_children_fix_of_zero cs' h,
        tree_sort_child_of_sorted cs' hsorted]
      match cs' with
      | [] => rw [List.foldl_nil]
      | c :: cs'' =>
          have hlt : d'.nlines < U32 := by
            have := consolidate_nlines_lt t (by rw [ht, DirTree.children]; simp)
            rw [ht, DirTree.nlines] at this
            exact this
          rw [fold_zero _ h _ hlt]

/-- Witness for C3 (amended): the scan of `r/s` (an empty subdirectory)
consolidates to an all-zero tree, on which a second run is a no-op. -/
theorem C3_witness :
    consolidate_directories (consolidate_directories
        (scan_directories "r" [FSEntry.dir "s" []]))
      = consolidate_directories (scan_directories "r" [FSEntry.dir "s" []]) := by
  apply C3_second_run_fixed
  simp [scan_node, dir_nlines, dir_children, make_path, entry_hidden,
    consolidate_node, consolidate_children, tree_sort_child, non_root_zero,
    DirTree.children, subtree_zero, forest_zero, DirTree.nlines, U32]

/-! ### Claim C4: the per-file contribution -/

/-- C4, as stated, is false in the extreme: the per-file counter is a C
`unsigned`, so a recognized file holding 2^32 newline bytes adds 0, not its
newline count. -/
theorem C4_counterexample :
    is_a_c_file "a.c" = true
    ∧ scan_file 0 "a.c" (List.replicate U32 '\n')
        ≠ (List.replicate U32 '\n').count '\n' := by
  refine ⟨by decide, ?_⟩
  rw [scan_file_matched 0 "a.c" _ (by decide), Nat.zero_add,
    List.count_replicate_self, Nat.mod_self]
  decide

/-- C4 (amended): a file whose name ends in `.c`, `.h`, `.cpp` or `.hpp` adds
to its directory's counter exactly the number of line-feed bytes of its raw
content, reduced modulo 2^32 (a trailing line without a newline is not counted
and no other line terminator is recognized: only `'\n'` bytes are counted); a
file with any other suffix leaves the counter untouched. -/
theorem C4_scan_file_contribution (acc : Nat) (fn : String) (content : List Char) :
    (is_a_c_file fn = true →
      scan_file acc fn content = (acc + content.count '\n') % U32)
    ∧ (is_a_c_file fn = false → scan_file acc fn content = acc) :=
  ⟨scan_file_matched acc fn content, scan_file_unmatched acc fn content⟩

/-- Witness for C4: a 10-newline `.cpp` file adds exactly 10; a `.py` file
adds nothing. -/
theorem C4_witness :
    scan_file 0 "dir/a.cpp" (List.replicate 10 '\n') = 10
    ∧ scan_file 7 "dir/a.py" ['\n', '\n'] = 7 := by
  constructor
  · rw [(C4_scan_file_contribution 0 "dir/a.cpp" (List.replicate 10 '\n')).1 (by decide)]
    decide
  · exact (C4_scan_file_contribution 7 "dir/a.py" ['\n', '\n']).2 (by decide)

/-! ### Claim C5: hidden entries are never visited -/

theorem dir_nlines_strip (dirname : String) (es : List FSEntry) : ∀ acc : Nat,
    dir_nlines dirname acc (strip_hidden es) = dir_nlines dirname acc es := by
  induction es with
  | nil => intro acc; rw [strip_hidden]
  | cons e rest ih =>
      intro acc
      match e with
      | .file n content =>
          rw [strip_hidden]
          by_cases hh : entry_hidden n = true
          · rw [if_pos hh, ih acc, dir_nlines, if_pos hh]
          · rw [if_neg hh, dir_nlines, if_neg hh, dir_nlines, if_neg hh, ih]
      | .dir n es' =>
          rw [strip_hidden]
          by_cases hh : entry_hidden n = true
          · rw [if_pos hh, ih acc, dir_nlines]
          · rw [if_neg hh, dir_nlines, dir_nlines, ih]

mutual
/-- Removing every hidden entry from the filesystem, at every depth, does not
change the scanner's output at all. -/
theorem scan_strip (dirname : String) (es : List FSEntry) :
    scan_directories dirname (strip_hidden es) = scan_directories dirname es := by
  rw [scan_node, scan_node, dir_nlines_strip, dir_children_strip]

/-- Child-list version of `scan_strip`. -/
theorem dir_children_strip (dirname : String) (es : List FSEntry) :
    dir_children dirname (strip_hidden es) = dir_children dirname es := by
  match es with
  | [] => rw [strip_hidden]
  | .file n content :: rest =>
      rw [strip_hidden]
      by_cases hh : entry_hidden n = true
      · rw [if_pos hh, dir_children_strip dirname rest, dir_children]
      · rw [if_neg hh, dir_children, dir_children, dir_children_strip dirname rest]
  | .dir n es' :: rest =>
      rw [strip_hidden]
      by_cases hh : entry_hidden n = true
      · rw [if_pos hh, dir_children_strip dirname rest, dir_children, if_pos hh]
      · rw [if_neg hh, dir_children, if_neg hh, dir_children, if_neg hh,
          scan_strip (make_path dirname n) es', dir_children_strip dirname rest]
end

/-- C5: hidden entries (name starting with `.`, including `.`, `..`, `.git`)
are never visited: scanning a filesystem equals scanning the same filesystem
with every hidden entry removed at every depth (so no node is created for them
and their contents contribute to no count), and a hidden entry at the head of
a directory listing is skipped outright. -/
theorem C5_hidden_excluded :
    (∀ (dirname : String) (es : List FSEntry),
        scan_directories dirname (strip_hidden es) = scan_directories dirname es)
    ∧ ∀ (dirname : String) (e : FSEntry) (rest : List FSEntry),
        entry_hidden e.name = true →
          scan_directories dirname (e :: rest) = scan_directories dirname rest := by
  refine ⟨scan_strip, ?_⟩
  intro dirname e rest h
  match e with
  | .file n content =>
      rw [FSEntry.name] at h
      rw [scan_node, scan_node, dir_nlines, if_pos h, dir_children]
  | .dir n es' =>
      rw [FSEntry.name] at h
      rw [scan_node, scan_node, dir_nlines, dir_children, if_pos h]

/-- Witness for C5: a `.git` directory full of sources is invisible to the
scanner. -/
theorem C5_witness :
    scan_directories "r" [FSEntry.dir ".git" [FSEntry.file "a.c" ['\n']]]
      = scan_directories "r" [] :=
  C5_hidden_excluded.2 "r" (FSEntry.dir ".git" [FSEntry.file "a.c" ['\n']]) [] (by decide)

/-! ### Claim C7: one node per scanned directory -/

mutual
/-- The scan of a directory produces exactly one node for it plus one node per
non-hidden directory anywhere below it — files, matching or not, produce no
node. -/
theorem scan_node_count (dirname : String) (es : List FSEntry) :
    (allNodes (scan_directories dirname es)).length = 1 + scanned_dirs es := by
  rw [scan_node, allNodes, List.length_cons, dir_children_node_count dirname es,
    Nat.add_comm]

/-- Forest version of `scan_node_count`. -/
theorem dir_children_node_count (dirname : String) (es : List FSEntry) :
    (allNodesL (dir_children dirname es)).length = scanned_dirs es := by
  match es with
  | [] => rw [dir_children, allNodesL, scanned_dirs]; rfl
  | .file n content :: rest =>
      rw [dir_children, scanned_dirs, dir_children_node_count dirname rest]
  | .dir n es' :: rest =>
      by_cases hh : entry_hidden n = true
      · rw [dir_children, if_pos hh, scanned_dirs, if_pos hh,
          dir_children_node_count dirname rest, Nat.zero_add]
      · rw [dir_children, if_neg hh, scanned_dirs, if_neg hh, allNodesL,
          List.length_append, scan_node_count (make_path dirname n) es',
          dir_children_node_count dirname rest]
end

/-- A directory listing with no visible subdirectory produces no child
node. -/
theorem dir_children_nil_of_no_dirs (dirname : String) (es : List FSEntry)
    (h : scanned_dirs es = 0) : dir_children dirname es = [] := by
  match es with
  | [] => rw [dir_children]
  | .file n content :: rest =>
      rw [scanned_dirs] at h
      rw [dir_children]
      exact dir_children_nil_of_no_dirs dirname rest h
  | .dir n es' :: rest =>
      rw [scanned_dirs] at h
      by_cases hh : entry_hidden n = true
      · rw [if_pos hh, Nat.zero_add] at h
        rw [dir_children, if_pos hh]
        exact dir_children_nil_of_no_dirs dirname rest h
      · rw [if_neg hh] at h
        omega

/-- C7: every directory the scanner visits yields exactly one node (the total
node count is one for the root plus one per non-hidden descendant directory,
regardless of how many files match), and a directory that contributes no
matching-file newlines and has no visible subdirectory yields a node with
`nlines = 0` and zero children. -/
theorem C7_one_node_per_directory :
    (∀ (dirname : String) (es : List FSEntry),
        (allNodes (scan_directories dirname es)).length = 1 + scanned_dirs es)
    ∧ ∀ (dirname : String) (es : List FSEntry),
        direct_newlines dirname es = 0 → scanned_dirs es = 0 →
          scan_directories dirname es = DirTree.node ⟨0, dirname⟩ [] := by
  refine ⟨scan_node_count, ?_⟩
  intro dirname es h0 hd
  rw [scan_node, dir_nlines_eq dirname es 0 U32_pos, h0,
    dir_children_nil_of_no_dirs dirname es hd]
  rfl

/-- Witness for C7: a directory holding only a non-matching `a.py` scans to a
single node with `nlines = 0` and no children. -/
theorem C7_witness :
    (allNodes (scan_directories "r" [FSEntry.file "a.py" ['\n']])).length
      = 1 + scanned_dirs [FSEntry.file "a.py" ['\n']]
    ∧ scan_directories "r" [FSEntry.file "a.py" ['\n']] = DirTree.node ⟨0, "r"⟩ [] :=
  ⟨C7_one_node_per_directory.1 "r" [FSEntry.file "a.py" ['\n']],
    C7_one_node_per_directory.2 "r" [FSEntry.file "a.py" ['\n']]
      (by rw [direct_newlines, direct_newlines, if_neg (by decide)])
      (by rw [scanned_dirs, scanned_dirs])⟩

/-! ### Claim C8: scan_file only touches the owning node's counter -/

mutual
theorem update_shape (f : Nat → Nat) (t : DirTree) (addr : List Nat) :
    shape (update_nlines f t addr) = shape t := by
  match t, addr with
  | .node d cs, [] => rw [update_nlines, shape, shape]
  | .node d cs, i :: addr =>
      rw [update_nlines, shape, shape, update_child_shape f cs i addr]

theorem update_child_shape (f : Nat → Nat) (cs : List DirTree) (i : Nat)
    (addr : List Nat) : shapeL (update_child f cs i addr) = shapeL cs := by
  match cs, i with
  | [], _ => rw [update_child]
  | c :: cs, 0 => rw [update_child, shapeL, shapeL, update_shape f c addr]
  | c :: cs, i + 1 => rw [update_child, shapeL, shapeL, update_child_shape f cs i addr]
end

mutual
/-- Updating the counter at one address leaves the counter at every other
address unchanged. -/
theorem update_frame (f : Nat → Nat) (t : DirTree) (addr addr' : List Nat)
    (h : addr' ≠ addr) :
    nlines_at (update_nlines f t addr) addr' = nlines_at t addr' := by
  match t, addr, addr' with
  | .node d cs, [], [] => exact absurd rfl h
  | .node d cs, [], j :: a' => rw [update_nlines, nlines_at, nlines_at]
  | .node d cs, i :: a, [] => rw [update_nlines, nlines_at, nlines_at]
  | .node d cs, i :: a, j :: a' =>
      rw [update_nlines, nlines_at, nlines_at]
      apply update_child_frame
      by_cases hij : j = i
      · refine Or.inr fun ha => h ?_
        rw [hij, ha]
      · exact Or.inl hij

/-- Child-list version of `update_frame`. -/
theorem update_child_frame (f : Nat → Nat) (cs : List DirTree) (i : Nat)
    (addr : List Nat) (j : Nat) (addr' : List Nat) (h : j ≠ i ∨ addr' ≠ addr) :
    nlines_at_child (update_child f cs i addr) j addr' = nlines_at_child cs j addr' := by
  match cs, i, j with
  | [], _, _ => rw [update_child]
  | c :: cs, 0, 0 =>
      rw [update_child, nlines_at_child, nlines_at_child]
      rcases h with h | h
      · exact absurd rfl h
      · exact update_frame f c addr addr' h
  | c :: cs, 0, j + 1 => rw [update_child, nlines_at_child, nlines_at_child]
  | c :: cs, i + 1, 0 => rw [update_child, nlines_at_child, nlines_at_child]
  | c :: cs, i + 1, j + 1 =>
      rw [update_child, nlines_at_child, nlines_at_child]
      apply update_child_frame
      rcases h with h | h
      · exact Or.inl fun hji => h (by rw [hji])
      · exact Or.inr h
end

mutual
/-- Updating the counter at a valid address applies `f` there. -/
theorem update_at_addr (f : Nat → Nat) (t : DirTree) (addr : List Nat) (m : Nat)
    (h : nlines_at t addr = some m) :
    nlines_at (update_nlines f t addr) addr = some (f m) := by
  match t, addr with
  | .node d cs, [] =>
      rw [nlines_at, Option.some.injEq] at h
      rw [update_nlines, nlines_at, h]
  | .node d cs, i :: a =>
      rw [nlines_at] at h
      rw [update_nlines, nlines_at]
      exact update_child_at_addr f cs i a m h

/-- Child-list version of `update_at_addr`. -/
theorem update_child_at_addr (f : Nat → Nat) (cs : List DirTree) (i : Nat)
    (addr : List Nat) (m : Nat) (h : nlines_at_child cs i addr = some m) :
    nlines_at_child (update_child f cs i addr) i addr = some (f m) := by
  match cs, i with
  | [], _ =>
      rw [nlines_at_child] at h
      exact absurd h (by simp)
  | c :: cs, 0 =>
      rw [nlines_at_child] at h
      rw [update_child, nlines_at_child]
      exact update_at_addr f c addr m h
  | c :: cs, i + 1 =>
      rw [nlines_at_child] at h
      rw [update_child, nlines_at_child]
      exact update_child_at_addr f cs i addr m h
end

mutual
/-- An update whose function is the identity is the identity. -/
theorem update_nlines_id (f : Nat → Nat) (hf : ∀ n, f n = n) (t : DirTree)
    (addr : List Nat) : update_nlines f t addr = t := by
  match t, addr with
  | .node d cs, [] => rw [update_nlines, hf d.nlines]
  | .node d cs, i :: a => rw [update_nlines, update_child_id f hf cs i a]

/-- Child-list version of `update_nlines_id`. -/
theorem update_child_id (f : Nat → Nat) (hf : ∀ n, f n = n) (cs : List DirTree)
    (i : Nat) (addr : List Nat) : update_child f cs i addr = cs := by
  match cs, i with
  | [], _ => rw [update_child]
  | c :: cs, 0 => rw [update_child, update_nlines_id f hf c addr]
  | c :: cs, i + 1 => rw [update_child, update_child_id f hf cs i addr]
end

/-- C8: scanning one file touches only the `nlines` counter of the directory
node it belongs to: names and tree positions are untouched, every other
node's counter is untouched, the designated counter receives exactly the
`scan_file` contribution, and for an unrecognized suffix the whole tree is
untouched. -/
theorem C8_scan_file_frame (t : DirTree) (addr : List Nat) (fn : String)
    (content : List Char) :
    shape (scan_file_at t addr fn content) = shape t
    ∧ (∀ addr' : List Nat, addr' ≠ addr →
        nlines_at (scan_file_at t addr fn content) addr' = nlines_at t addr')
    ∧ (∀ m : Nat, nlines_at t addr = some m →
        nlines_at (scan_file_at t addr fn content) addr
          = some (scan_file m fn content))
    ∧ (is_a_c_file fn = false → scan_file_at t addr fn content = t) := by
  refine ⟨update_shape _ t addr,
    fun addr' h => update_frame _ t addr addr' h,
    fun m h => update_at_addr _ t addr m h,
    fun h => update_nlines_id _ (fun n => scan_file_unmatched n fn content h) t addr⟩

/-- Witness for C8 on a concrete two-node tree: updating the child at address
`[0]` leaves the shape and the root counter alone and adds 2 to the child. -/
theorem C8_witness :
    shape (scan_file_at (DirTree.node ⟨7, "r"⟩ [DirTree.node ⟨3, "s"⟩ []])
        [0] "r/s/a.c" ['\n', '\n'])
      = shape (DirTree.node ⟨7, "r"⟩ [DirTree.node ⟨3, "s"⟩ []])
    ∧ nlines_at (scan_file_at (DirTree.node ⟨7, "r"⟩ [DirTree.node ⟨3, "s"⟩ []])
        [0] "r/s/a.c" ['\n', '\n']) []
      = nlines_at (DirTree.node ⟨7, "r"⟩ [DirTree.node ⟨3, "s"⟩ []]) []
    ∧ nlines_at (scan_file_at (DirTree.node ⟨7, "r"⟩ [DirTree.node ⟨3, "s"⟩ []])
        [0] "r/s/a.c" ['\n', '\n']) [0]
      = some (scan_file 3 "r/s/a.c" ['\n', '\n']) := by
  have h := C8_scan_file_frame (DirTree.node ⟨7, "r"⟩ [DirTree.node ⟨3, "s"⟩ []])
    [0] "r/s/a.c" ['\n', '\n']
  exact ⟨h.1, h.2.1 [] (by decide),
    h.2.2.1 3 (by rw [nlines_at, nlines_at_child, nlines_at])⟩

/-! ### Claim C9: the capacity ceiling of the node store -/

theorem arena_insert_many_ok (ds : List DirData) : ∀ a : ArenaTree,
    a.nodes.length ≤ a.capacity →
    ((∃ a', arena_insert_many a ds = Except.ok a')
      ↔ a.nodes.length + ds.length ≤ a.capacity) := by
  induction ds with
  | nil =>
      intro a ha
      rw [arena_insert_many]
      constructor
      · intro _
        rw [List.length_nil, Nat.add_zero]
        exact ha
      · intro _
        exact ⟨a, rfl⟩
  | cons d ds ih =>
      intro a ha
      by_cases hlt : a.nodes.length < a.capacity
      · rw [arena_insert_many, arena_insert, if_pos hlt,
          ih ⟨a.nodes ++ [d], a.capacity⟩ (by simp; omega)]
        simp
        omega
      · rw [arena_insert_many, arena_insert, if_neg hlt]
        simp
        omega

/-- C9: once the store is reserved at `MAX_DIRECTORY` (100000) slots and
locked, an insertion into a full store is a deterministic fatal error; a
successful insertion appends and relocates nothing (every existing slot reads
back unchanged); and starting from the reserved empty store, a sequence of
insertions succeeds exactly when it stays within the 100000-slot ceiling. -/
theorem C9_capacity_ceiling :
    (∀ (a : ArenaTree) (d : DirData), a.capacity ≤ a.nodes.length →
        arena_insert a d = Except.error "capacity exceeded")
    ∧ (∀ (a a' : ArenaTree) (d : DirData), arena_insert a d = Except.ok a' →
        a'.nodes = a.nodes ++ [d]
          ∧ ∀ i : Nat, i < a.nodes.length → a'.nodes[i]? = a.nodes[i]?)
    ∧ ∀ ds : List DirData,
        (∃ a', arena_insert_many (tree_reserve MAX_DIRECTORY) ds = Except.ok a')
          ↔ ds.length ≤ MAX_DIRECTORY := by
  refine ⟨?_, ?_, ?_⟩
  · intro a d h
    rw [arena_insert, if_neg (by omega)]
  · intro a a' d h
    rw [arena_insert] at h
    by_cases hlt : a.nodes.length < a.capacity
    · rw [if_pos hlt] at h
      have ha : a' = ⟨a.nodes ++ [d], a.capacity⟩ := by
        cases h
        rfl
      refine ⟨by rw [ha], ?_⟩
      intro i hi
      rw [ha]
      exact List.getElem?_append_left hi
    · rw [if_neg hlt] at h
      exact absurd h (by simp)
  · intro ds
    have h := arena_insert_many_ok ds (tree_reserve MAX_DIRECTORY)
      (by rw [tree_reserve]; exact Nat.zero_le _)
    rw [h]
    rw [tree_reserve]
    simp

/-- Witness for C9: a full one-slot store rejects an insertion; one node fits
into the freshly reserved store. -/
theorem C9_witness :
    arena_insert ⟨[⟨0, "r"⟩], 1⟩ ⟨0, "s"⟩ = Except.error "capacity exceeded"
    ∧ ∃ a', arena_insert_many (tree_reserve MAX_DIRECTORY) [⟨0, "r"⟩]
        = Except.ok a' :=
  ⟨C9_capacity_ceiling.1 ⟨[⟨0, "r"⟩], 1⟩ ⟨0, "s"⟩ (by decide),
    (C9_capacity_ceiling.2.2 [⟨0, "r"⟩]).mpr (by decide)⟩

/-! ### Claim C10: all counter arithmetic is 32-bit unsigned -/

/-- C10: every stage of the counting pipeline works in `unsigned` 32-bit
arithmetic and silently wraps modulo 2^32: the per-file count (chunked fread
accumulation included), the per-directory accumulation of `scan_directories`,
and the per-parent consolidation fold. -/
theorem C10_u32_wrap :
    (∀ buffer : List Char, count_eol buffer = buffer.count '\n' % U32)
    ∧ (∀ chunks : List (List Char), fread_loop chunks = count_eol chunks.flatten)
    ∧ (∀ (dirname : String) (es : List FSEntry),
        dir_nlines dirname 0 es = direct_newlines dirname es % U32)
    ∧ ∀ (cs : List DirTree) (init : Nat), init < U32 →
        cs.foldl (fun n c => (n + c.nlines) % U32) init
          = (init + (cs.map DirTree.nlines).sum) % U32 := by
  refine ⟨count_eol_eq, fread_loop_eq, ?_, fold_add_mod⟩
  intro dirname es
  rw [dir_nlines_eq dirname es 0 U32_pos, Nat.zero_add]

/-- Witness for C10: one counter past `2^32 - 1` wraps to 0 in the
consolidation fold, and the per-file counter is exact below the modulus. -/
theorem C10_witness :
    count_eol ['\n', 'a', '\n'] = 2
    ∧ [DirTree.node ⟨4294967295, "a"⟩ [], DirTree.node ⟨1, "b"⟩ []].foldl
        (fun n c => (n + c.nlines) % U32) 0 = 0 := by
  constructor
  · rw [C10_u32_wrap.1]
    decide
  · rw [C10_u32_wrap.2.2.2 _ 0 U32_pos]
    simp [DirTree.nlines, U32]

/-! ### Claim C6: exit codes and fatal error handling -/

/-- C6: the process exits 0 on success; 1 on a usage error (missing
argument), on a root directory that cannot be opened, on a recognized source
file that cannot be opened as text, and on a subdirectory that cannot be
opened; 2 when a `stat` query fails.  Every error class carries the offending
path, aborts the scan immediately no matter what entries remain, and its exit
code becomes the process exit code — there is no skip-and-continue. -/
theorem C6_exit_codes :
    (∀ root : RootFS, main_run [] root = 1)
    ∧ (∀ (p : String) (rest : List String), main_run (p :: rest) RootFS.unreadable = 1)
    ∧ (∀ (p : String) (rest : List String) (es : List FSEntryE) (t : DirTree),
        scanE_directories p es = Except.ok t →
          main_run (p :: rest) (RootFS.ok es) = 0)
    ∧ (∀ (p : String) (rest : List String) (es : List FSEntryE) (e : ErrExit),
        scanE_directories p es = Except.error e →
          main_run (p :: rest) (RootFS.ok es) = e.code)
    ∧ (∀ (dn : String) (acc : Nat) (n : String) (rest : List FSEntryE),
        entry_hidden n = false →
          scanE_entries dn acc (FSEntryE.statFail n :: rest)
              = Except.error ⟨2, make_path dn n⟩
            ∧ (is_a_c_file (make_path dn n) = true →
                scanE_entries dn acc (FSEntryE.fileUnreadable n :: rest)
                  = Except.error ⟨1, make_path dn n⟩)
            ∧ scanE_entries dn acc (FSEntryE.dirUnreadable n :: rest)
              = Except.error ⟨1, make_path dn n⟩)
    ∧ ∀ (dn : String) (acc : Nat) (n : String) (es rest : List FSEntryE) (e : ErrExit),
        entry_hidden n = false →
          scanE_directories (make_path dn n) es = Except.error e →
            scanE_entries dn acc (FSEntryE.dirE n es :: rest) = Except.error e := by
  refine ⟨?_, ?_, ?_, ?_, ?_, ?_⟩
  · intro root
    rw [main_run]
  · intro p rest
    rw [main_run]
  · intro p rest es t h
    rw [main_run, h]
  · intro p rest es e h
    rw [main_run, h]
  · intro dn acc n rest hh
    refine ⟨?_, ?_, ?_⟩
    · rw [scanE_entries, hh]
      rfl
    · intro hc
      rw [scanE_entries, hh]
      simp [hc]
    · rw [scanE_entries, hh]
      rfl
  · intro dn acc n es rest e hh hE
    rw [scanE_entries, hh]
    simp [hE]

/-- Witness for C6: a failing `stat` on `root/x` makes the whole run exit 2;
an unreadable recognized file makes it exit 1; no argument exits 1. -/
theorem C6_witness :
    main_run ["root"] (RootFS.ok [FSEntryE.statFail "x", FSEntryE.file "a.c" ['\n']]) = 2
    ∧ main_run ["root"] (RootFS.ok [FSEntryE.fileUnreadable "a.c"]) = 1
    ∧ main_run [] (RootFS.ok []) = 1 := by
  have h5 := C6_exit_codes.2.2.2.2.1 "root" 0 "x" [FSEntryE.file "a.c" ['\n']]
    (by decide)
  have hscan1 : scanE_directories "root" [FSEntryE.statFail "x", FSEntryE.file "a.c" ['\n']]
      = Except.error ⟨2, make_path "root" "x"⟩ := by
    rw [scanE_directories, h5.1]
  have h5' := C6_exit_codes.2.2.2.2.1 "root" 0 "a.c" [] (by decide)
  have hscan2 : scanE_directories "root" [FSEntryE.fileUnreadable "a.c"]
      = Except.error ⟨1, make_path "root" "a.c"⟩ := by
    rw [scanE_directories, h5'.2.1 (by decide)]
  exact ⟨C6_exit_codes.2.2.2.1 "root" [] _ _ hscan1,
    C6_exit_codes.2.2.2.1 "root" [] _ _ hscan2,
    C6_exit_codes.1 (RootFS.ok [])⟩

end CountLines
